import Mathlib

/-!
Verification of the label-consensus and worker-reliability engine of the
`g-and-t` crowdsourcing package (`gandt/data/analyse_labels_data.py`) and of
the serving adapter `gandt/serving/lambda_preprocess.py`.

The Python is embedded shallowly:
* a `pandas.DataFrame` of annotation records becomes a `List AnnotationRecord`;
* a Python `dict` becomes an insertion-ordered association list, with update
  semantics mirrored by explicit recursive functions (`dictSet`, `addRating`);
* Python floats (`min_ratings_prop`, `reliability_threshold`, means) become
  rationals `ℚ`;
* code that can raise becomes `Option`/`Except`.
-/

/-- One raw annotation record, one per (worker, image) pair, as produced by the
ingestion step (`read_responses` builds dicts with these fields; the
bookkeeping fields `labels_fname` and `dataset_object_id` play no role in the
aggregation logic and are omitted). -/
structure AnnotationRecord where
  labelling_job_name : String
  image_filename : String
  image_index : Nat
  worker_id : String
  labels : List String
deriving DecidableEq, Repr

/-- The distinct elements of `l` in order of first appearance (Python dicts
preserve insertion order). -/
def pyDedup {α : Type} [DecidableEq α] (l : List α) : List α :=
  l.foldl (fun acc x => if x ∈ acc then acc else acc ++ [x]) []

/-- `collections.Counter` key list: the distinct elements of `l` in order of
first appearance. -/
def counterKeys (l : List String) : List String :=
  pyDedup l

/-- The count of the entry returned by `Counter.most_common(1)[0]`:
`most_common` sorts the counter items by count, descending, so the head's
count is the greatest frequency occurring in `l`. -/
def mostCommonCount (l : List String) : Nat :=
  (counterKeys l).foldl (fun m k => max m (l.count k)) 0

/-- Strict lexicographic comparison of two char lists (Python string `<`):
shorter prefix first, otherwise by the first differing character's codepoint. -/
def charListLt : List Char → List Char → Bool
  | [], [] => false
  | [], _ :: _ => true
  | _ :: _, [] => false
  | a :: as, b :: bs =>
      if a < b then true else if b < a then false else charListLt as bs

/-- Python string `<`, on the underlying character lists. -/
def strLt (a b : String) : Bool := charListLt a.data b.data

/-- Insert `x` before the first element strictly greater than it (keeping it
after equal elements, as a stable sort does). -/
def insertSorted {α : Type} (lt : α → α → Bool) (x : α) : List α → List α
  | [] => [x]
  | y :: ys => if lt x y then x :: y :: ys else y :: insertSorted lt x ys

/-- Stable sort by a strict comparison, modelling Python's `sorted`. -/
def sortBy {α : Type} (lt : α → α → Bool) : List α → List α
  | [] => []
  | x :: xs => insertSorted lt x (sortBy lt xs)

/-- Python `sorted` on a list of strings: lexicographic (codepoint) order. -/
def sortStrings (l : List String) : List String :=
  sortBy strLt l

/-- The aggregated per-image output row built by
`get_summary_stats_for_image`.  `decoy_label` is `none` where the Python holds
`pd.np.nan`; `worker_quality` is an insertion-ordered association list standing
for the Python dict. -/
structure ImageSummary where
  worker_list : List String
  labels : List String
  labels_all_same : Bool
  no_most_common_labels : Nat
  no_eligible_workers : Nat
  majority_label : List String
  majority_label_description : String
  majority_label_verbose : String
  is_label_certain : Bool
  is_decoy : Bool
  decoy_label : Option String
  worker_quality : List (String × Nat)
deriving DecidableEq, Repr

/-- The float comparison `count > threshold * n`, carried out exactly on the
rational threshold `p` by cross multiplication with its positive denominator:
`p * n < count  ↔  p.num * n < count * p.den`.  It is written over `p`'s
numerator and denominator because `Rat` multiplication does not reduce inside
the kernel; `ratMulLt_iff` below proves it equivalent to the rational
comparison. -/
def ratMulLt (p : ℚ) (n : Nat) (count : Nat) : Bool :=
  decide (p.num * (n : Int) < (count : Int) * (p.den : Int))

/-- Python dict item assignment `d[k] = v` on an insertion-ordered association
list: overwrite the existing entry in place, else append at the end. -/
def dictSet {α β : Type} [DecidableEq α] :
    List (α × β) → α → β → List (α × β)
  | [], k, v => [(k, v)]
  | (k', v') :: rest, k, v =>
      if k' = k then (k, v) :: rest else (k', v') :: dictSet rest k v

/-- Python dict lookup on an association list (the keys are unique, so the
first match is the entry). -/
def alookup {α β : Type} [DecidableEq α] : List (α × β) → α → Option β
  | [], _ => none
  | p :: rest, w => if p.1 = w then some p.2 else alookup rest w

/-- `get_summary_stats_for_image(raw_labels, min_ratings_no, min_ratings_prop,
decoys)` over the records of one `(image_filename, labelling_job_name)` group.

Returns `none` where the Python raises: `label_counts.most_common(1)[0]` is an
`IndexError` when the flattened label list is empty.

Decoy check: the source computes the lookup key as
`raw_labels['image_filename'].iloc(0)`.  `.iloc` is an indexer object and
`.iloc(0)` *calls* it (setting its axis), returning the indexer object itself
rather than the first filename (`.iloc[0]` would take the element).  That
object is never a key of the `{filename: label}` decoy dict, so the lookup
raises `KeyError` unconditionally and the `except KeyError` branch always
runs: `is_decoy = False`, `decoy_label = nan`, whatever `decoys` holds. -/
def get_summary_stats_for_image (raw_labels : List AnnotationRecord)
    (min_ratings_no : Nat) (min_ratings_prop : ℚ)
    (decoys : List (String × String)) : Option ImageSummary :=
  let worker_list := raw_labels.map (fun r => r.worker_id)
  let labels := (raw_labels.map (fun r => r.labels)).flatten
  if labels.isEmpty then none else
  let labels_all_same := (counterKeys labels).length = 1
  let most_common_count := mostCommonCount labels
  let most_common_labels :=
    sortStrings ((counterKeys labels).filter (fun k => labels.count k = most_common_count))
  let no_labels := worker_list.length
  let all_most_common_label_str := String.intercalate ", " most_common_labels
  let is_certain : Bool :=
    decide (most_common_count ≥ min_ratings_no) &&
      ratMulLt min_ratings_prop no_labels most_common_count
  let most_common_label_str :=
    if is_certain then all_most_common_label_str ++ " (certain)"
    else all_most_common_label_str ++ " (need relabelling)"
  let verbose_label_str := String.intercalate ", "
    (most_common_labels.map (fun l =>
      l ++ " (" ++ toString most_common_count ++ " / " ++ toString no_labels ++ ")"))
  let worker_quality := raw_labels.foldl (fun d r =>
    if is_certain then
      dictSet d r.worker_id
        (if r.labels.any (fun l => l ∈ most_common_labels) then 1 else 0)
    else d) []
  some
    { worker_list := worker_list
      labels := labels
      labels_all_same := labels_all_same
      no_most_common_labels := most_common_count
      no_eligible_workers := no_labels
      majority_label := most_common_labels
      majority_label_description := most_common_label_str
      majority_label_verbose := verbose_label_str
      is_label_certain := is_certain
      is_decoy := false
      decoy_label := none
      worker_quality := worker_quality }

/-- One row of the `get_workers_reliability` output DataFrame. -/
structure WorkerRow where
  worker_id : String
  mean : ℚ
  count : Nat
  is_worker_reliable : Bool
deriving DecidableEq, Repr

/-- One step of filling the `defaultdict(list)` in `get_workers_reliability`:
`worker_reliability[worker_id].append(reliability_rating)` appends to the
existing entry, or creates a fresh singleton entry at the end (Python dicts
are insertion ordered). -/
def addRating : List (String × List Nat) → String → Nat → List (String × List Nat)
  | [], w, r => [(w, [r])]
  | (k, l) :: rest, w, r =>
      if k = w then (k, l ++ [r]) :: rest else (k, l) :: addRating rest w r

/-- The filled `worker_reliability` defaultdict: iterate over the
`worker_quality` column of the concatenated experiments, and within each
quality dict over its `(worker_id, rating)` items. -/
def poolRatings (qs : List (List (String × Nat))) : List (String × List Nat) :=
  qs.foldl (fun acc q => q.foldl (fun a p => addRating a p.1 p.2) acc) []

/-- `np.mean` of a list of 0/1 ratings, as a rational. -/
def meanQ (l : List Nat) : ℚ := (l.sum : ℚ) / (l.length : ℚ)

/-- `get_workers_reliability(experiment_df, previous_experiments,
reliability_threshold, no_labels_per_experiment)`.  A DataFrame argument is
represented by its `worker_quality` column (the only column the function
reads): a list of per-image quality dicts. -/
def get_workers_reliability (experiment_df : List (List (String × Nat)))
    (previous_experiments : List (List (List (String × Nat))))
    (reliability_threshold : ℚ) (no_labels_per_experiment : Nat) :
    List WorkerRow :=
  let all_experiments := experiment_df ++ previous_experiments.flatten
  (poolRatings all_experiments).map (fun p =>
    { worker_id := p.1
      mean := meanQ p.2
      count := p.2.length / no_labels_per_experiment
      -- mean(scores) > threshold, cross-multiplied by the list length:
      -- sum/len > θ  ↔  θ * len < sum (the pooled lists are never empty)
      is_worker_reliable := ratMulLt reliability_threshold p.2.length p.2.sum })

/-- One row of an annotated-responses table: the groupby key columns
`(image_filename, labelling_job_name)` restored by `reset_index`, plus the
per-group summary produced by `get_summary_stats_for_image`. -/
structure ConsensusRow where
  image_filename : String
  labelling_job_name : String
  summary : ImageSummary
deriving DecidableEq, Repr

/-- The records of one groupby group: those matching the key. -/
def groupOf (rs : List AnnotationRecord) (k : String × String) :
    List AnnotationRecord :=
  rs.filter (fun r => r.image_filename = k.1 ∧ r.labelling_job_name = k.2)

/-- First-appearance deduplication of the `(image_filename,
labelling_job_name)` key pairs occurring in `rs`. -/
def keyPairs (rs : List AnnotationRecord) : List (String × String) :=
  pyDedup (rs.map (fun r => (r.image_filename, r.labelling_job_name)))

/-- Strict order on `(image_filename, labelling_job_name)` keys: Python
tuples of strings compare lexicographically, component by component. -/
def keyPairLt (a b : String × String) : Bool :=
  strLt a.1 b.1 || (a.1 == b.1 && strLt a.2 b.2)

/-- Groupby key order: pandas `groupby(..., sort=True)` (the default) sorts
the group keys. -/
def sortKeyPairs (ks : List (String × String)) : List (String × String) :=
  sortBy keyPairLt ks

/-- Apply `get_summary_stats_for_image` to each group key in turn, failing as
the Python does as soon as one group fails. -/
def rowsForKeys (rs : List AnnotationRecord) (min_ratings_no : Nat)
    (min_ratings_prop : ℚ) (decoys : List (String × String)) :
    List (String × String) → Option (List ConsensusRow)
  | [] => some []
  | k :: ks =>
      match get_summary_stats_for_image (groupOf rs k) min_ratings_no
          min_ratings_prop decoys, rowsForKeys rs min_ratings_no
          min_ratings_prop decoys ks with
      | some s, some t => some (⟨k.1, k.2, s⟩ :: t)
      | _, _ => none

/-- `df.groupby(['image_filename', 'labelling_job_name'],
as_index=False).apply(get_summary_stats_for_image, ...).reset_index()`:
one `ConsensusRow` per group, in sorted key order. -/
def groupbyApply (rs : List AnnotationRecord) (min_ratings_no : Nat)
    (min_ratings_prop : ℚ) (decoys : List (String × String)) :
    Option (List ConsensusRow) :=
  rowsForKeys rs min_ratings_no min_ratings_prop decoys
    (sortKeyPairs (keyPairs rs))

/-- The filtering step of `filter_out_unreliable_workers`:
`raw_responses.merge(workers_reliability)` is an inner join on `worker_id`
(the only shared column), so records of workers absent from the reliability
table are dropped; the boolean mask then keeps only rows with
`is_worker_reliable` true. -/
def filterReliable (raw : List AnnotationRecord) (wr : List WorkerRow) :
    List AnnotationRecord :=
  raw.filter (fun r =>
    match wr.find? (fun row => row.worker_id == r.worker_id) with
    | some row => row.is_worker_reliable
    | none => false)

/-- `filter_out_unreliable_workers(raw_responses, previous_experiments,
reliability_threshold, min_ratings_no, min_ratings_prop, decoys,
include_previous_in_output)`.

Returns `none` where the Python raises.  Besides the per-group failures of
`get_summary_stats_for_image`, the `include_previous_in_output=True` branch
raises when `previous_experiments` is empty (`pd.concat` of no objects is a
`ValueError`) or when `raw_responses` is empty
(`raw_responses['labelling_job_name'].tolist()[0]` is an `IndexError`).

The call to `get_workers_reliability` leaves `no_labels_per_experiment` at
its default of 20. -/
def filter_out_unreliable_workers (raw_responses : List AnnotationRecord)
    (previous_experiments : List (List AnnotationRecord))
    (reliability_threshold : ℚ) (min_ratings_no : Nat) (min_ratings_prop : ℚ)
    (decoys : List (String × String)) (include_previous_in_output : Bool) :
    Option (List ConsensusRow × List ConsensusRow) := do
  let unfiltered ← groupbyApply raw_responses min_ratings_no min_ratings_prop
    decoys
  let previous_annotated ← previous_experiments.mapM (fun responses =>
    groupbyApply responses min_ratings_no min_ratings_prop decoys)
  let workers_reliability := get_workers_reliability
    (unfiltered.map (fun row => row.summary.worker_quality))
    (previous_annotated.map (fun t => t.map (fun row => row.summary.worker_quality)))
    reliability_threshold 20
  if include_previous_in_output then do
    if previous_experiments.isEmpty then none else
    match raw_responses.head? with
    | none => none
    | some r0 =>
      let previous_relabelled := previous_experiments.flatten.map (fun r =>
        { r with labelling_job_name := r0.labelling_job_name })
      let raw_all := raw_responses ++ previous_relabelled
      let unfiltered_all := unfiltered ++ previous_annotated.flatten
      let filtered ← groupbyApply (filterReliable raw_all workers_reliability)
        min_ratings_no min_ratings_prop decoys
      some (unfiltered_all, filtered)
  else do
    let filtered ← groupbyApply (filterReliable raw_responses workers_reliability)
      min_ratings_no min_ratings_prop decoys
    some (unfiltered, filtered)

/-- Python exceptions that the embedded ingestion loop of `read_responses`
can raise.  `malformedInputError` stands for the `MalformedInputError` class
named by the specification's error taxonomy: no class of that name exists
anywhere in this repository, and the embedded code never produces this
value — it is declared only so that statements can compare the actual
exception against the claimed one. -/
inductive PyError where
  | keyError : Nat → PyError
  | valueError : String → PyError
  | malformedInputError : PyError
deriving DecidableEq, Repr

/-- One entry of the labelling-job input manifest decoded from
`annotation_set['dataObject']['content']`: `{'index': ..., 'source-ref': ...}`. -/
structure ManifestEntry where
  index : Nat
  source_ref : String
deriving DecidableEq, Repr

/-- `os.path.basename` for POSIX paths: the part after the last slash. -/
def basename (s : String) : String :=
  (s.splitOn "/").getLastD ""

/-- The `index_to_filename` dict comprehension:
`{d['index']: os.path.basename(d['source-ref']) for d in input_data}`
(a later manifest entry with a duplicate index overwrites the earlier one). -/
def index_to_filename (manifest : List ManifestEntry) : List (Nat × String) :=
  manifest.foldl (fun acc d => dictSet acc d.index (basename d.source_ref)) []

/-- The characters after the last dash (the whole string when there is no
dash): `label_id.split('-')[-1]` (`split` never returns an empty list, so
`[-1]` is total). -/
def afterLastDash (l : List Char) : List Char :=
  l.foldl (fun acc c => if c = '-' then [] else acc ++ [c]) []

/-- Python `int` on the digit tail: `none` (a `ValueError`) when it is empty
or contains a non-digit.  The label ids end in plain decimal indices, so the
signs and whitespace that `int` would also accept do not arise. -/
def parseDigits (l : List Char) : Option Nat :=
  if l.isEmpty then none
  else l.foldl (fun acc c =>
    match acc with
    | none => none
    | some a =>
        if c.isDigit then some (a * 10 + (c.toNat - 48)) else none) (some 0)

/-- `int(label_id.split('-')[-1])`. -/
def parseIndex (label_id : String) : Option Nat :=
  parseDigits (afterLastDash label_id.data)

/-- The innermost ingestion loop over one worker's decoded
`annotationData.content` items (`label_id -> decoded label list`), resolving
each label index through the `index_to_filename` table.  A missing manifest
entry is the dict lookup `index_to_filename[label_index]`, a `KeyError`. -/
def readWorkerLabels (labelling_job_name : String)
    (idx2fname : List (Nat × String)) (worker_id : String) :
    List (String × List String) → Except PyError (List AnnotationRecord)
  | [] => Except.ok []
  | (label_id, this_labels) :: rest =>
      match parseIndex label_id with
      | none => Except.error (PyError.valueError label_id)
      | some label_index =>
          match alookup idx2fname label_index with
          | none => Except.error (PyError.keyError label_index)
          | some image_filename =>
              match readWorkerLabels labelling_job_name idx2fname worker_id
                  rest with
              | Except.error e => Except.error e
              | Except.ok tail =>
                  Except.ok (⟨labelling_job_name, image_filename, label_index,
                    worker_id, this_labels⟩ :: tail)

/-- One annotation set of a worker-response payload, after the JSON layers
(`dataObject.content`, `annotationData.content`, the per-label blobs) have
been decoded by `json.loads`: the embedded job-input manifest plus the
worker submissions, each a `(workerId, items)` pair. -/
structure AnnotationSet where
  manifest : List ManifestEntry
  submissions : List (String × List (String × List String))
deriving DecidableEq, Repr

/-- The loop of `read_responses` over one annotation set's
`annotation_set['annotations']`. -/
def readSubmissions (labelling_job_name : String)
    (idx2fname : List (Nat × String)) :
    List (String × List (String × List String)) →
    Except PyError (List AnnotationRecord)
  | [] => Except.ok []
  | (worker_id, items) :: rest =>
      match readWorkerLabels labelling_job_name idx2fname worker_id items with
      | Except.error e => Except.error e
      | Except.ok here =>
          match readSubmissions labelling_job_name idx2fname rest with
          | Except.error e => Except.error e
          | Except.ok tail => Except.ok (here ++ tail)

/-- `read_responses(fname)` after I/O: the labelling job name (taken from the
file path) and the decoded payload (a list of annotation sets) are passed in;
the result rows are the records appended to `raw_results`, in order.  The
bookkeeping columns `labels_fname` and `dataset_object_id` are omitted. -/
def read_responses (labelling_job_name : String) (data : List AnnotationSet) :
    Except PyError (List AnnotationRecord) :=
  match data with
  | [] => Except.ok []
  | aset :: rest =>
      match readSubmissions labelling_job_name
          (index_to_filename aset.manifest) aset.submissions with
      | Except.error e => Except.error e
      | Except.ok here =>
          match read_responses labelling_job_name rest with
          | Except.error e => Except.error e
          | Except.ok tail => Except.ok (here ++ tail)

/-- A Python value as far as `lambda_preprocess.lambda_handler` inspects it:
`None`, a string, a dict with string keys, or a list (other JSON scalars play
no role in the handler's control flow). -/
inductive PyVal where
  | pyNone : PyVal
  | pyStr : String → PyVal
  | pyDict : List (String × PyVal) → PyVal
  | pyList : List PyVal → PyVal

/-- Python dict subscript `d[k]`: the first (only) entry with key `k`, or a
`KeyError`. -/
def pyGetItem (d : List (String × PyVal)) (k : String) :
    Except String PyVal :=
  match d.find? (fun p => p.1 == k) with
  | some p => Except.ok p.2
  | none => Except.error "KeyError"

/-- Python `d.get(k)`: like subscript but yielding `None` when absent. -/
def pyGet (d : List (String × PyVal)) (k : String) : PyVal :=
  match d.find? (fun p => p.1 == k) with
  | some p => p.2
  | none => PyVal.pyNone

/-- The response `{"taskInput": {"taskObject": source}}`. -/
def wrapTask (source : PyVal) : PyVal :=
  PyVal.pyDict [("taskInput", PyVal.pyDict [("taskObject", source)])]

/-- `lambda_preprocess.lambda_handler(event, context)`.  `event` is the
event dict's entry list; `context` is unused by the source and omitted.
`loads` stands for the standard-library `json.loads` (raising on undecodable
input).  `event['dataObject']` raises `KeyError` when absent, and calling
`.get` on a non-dict value raises `AttributeError`. -/
def lambda_handler (loads : String → Except String PyVal)
    (event : List (String × PyVal)) : Except String PyVal :=
  match pyGetItem event "dataObject" with
  | Except.error e => Except.error e
  | Except.ok (PyVal.pyDict entries) =>
      match pyGet entries "source" with
      | PyVal.pyNone => Except.ok (PyVal.pyDict [])
      | PyVal.pyStr s =>
          match loads s with
          | Except.error e => Except.error e
          | Except.ok v => Except.ok (wrapTask v)
      | v => Except.ok (wrapTask v)
  | Except.ok _ => Except.error "AttributeError"

/-! ### Derived notions the claims quantify over -/

instance {ε α : Type} [DecidableEq ε] [DecidableEq α] :
    DecidableEq (Except ε α) := fun x y =>
  match x, y with
  | Except.ok a, Except.ok b =>
      if h : a = b then isTrue (by rw [h])
      else isFalse (fun he => h (by cases he; rfl))
  | Except.ok _, Except.error _ => isFalse (fun he => by cases he)
  | Except.error _, Except.ok _ => isFalse (fun he => by cases he)
  | Except.error e, Except.error f =>
      if h : e = f then isTrue (by rw [h])
      else isFalse (fun he => h (by cases he; rfl))

/-- The flattened label multiset of a record group. -/
def allLabels (rs : List AnnotationRecord) : List String :=
  (rs.map (fun r => r.labels)).flatten

/-- The greatest frequency at which any label occurs in `l`. -/
def maxFreq (l : List String) : Nat :=
  l.foldl (fun m k => max m (l.count k)) 0

/-- All pooled 0/1 agreement observations of worker `w`, in encounter order,
collected directly from the supplied quality dicts. -/
def observations (qs : List (List (String × Nat))) (w : String) : List Nat :=
  (qs.map (fun q => (q.filter (fun p => p.1 = w)).map (fun p => p.2))).flatten

/-- The rational 1/2, as a raw constructor so that its numerator and
denominator evaluate inside the kernel. -/
def ratHalf : ℚ := ⟨1, 2, by decide, by decide⟩

/-- The rational 4/5 (the default reliability threshold 0.8), as a raw
constructor so that its fields evaluate inside the kernel. -/
def ratFourFifths : ℚ := ⟨4, 5, by decide, by decide⟩

/-! ### Concrete inputs used by witnesses and counterexamples -/

/-- The specification's three-worker scenario: labels Cat, Dog, Cat. -/
def threeWorkerGroup : List AnnotationRecord :=
  [⟨"J", "img.jpg", 0, "w1", ["Cat"]⟩, ⟨"J", "img.jpg", 0, "w2", ["Dog"]⟩,
   ⟨"J", "img.jpg", 0, "w3", ["Cat"]⟩]

/-- A two-worker group whose image is listed in the decoy map. -/
def decoyGroup : List AnnotationRecord :=
  [⟨"J", "d.jpg", 0, "w1", ["Cat"]⟩, ⟨"J", "d.jpg", 0, "w2", ["Cat"]⟩]

/-- A group in which Dog and Cat tie at the maximum frequency. -/
def tieGroup : List AnnotationRecord :=
  [⟨"J", "t.jpg", 0, "w1", ["Dog"]⟩, ⟨"J", "t.jpg", 0, "w2", ["Cat"]⟩]

/-- A current round: one image labelled Cat by two workers. -/
def currentRoundA : List AnnotationRecord :=
  [⟨"J", "a.jpg", 0, "w1", ["Cat"]⟩, ⟨"J", "a.jpg", 0, "w2", ["Cat"]⟩]

/-- A historical round on a different image and job, same two workers. -/
def previousRoundsB : List (List AnnotationRecord) :=
  [[⟨"K", "b.jpg", 0, "w1", ["Dog"]⟩, ⟨"K", "b.jpg", 0, "w2", ["Dog"]⟩]]

/-- A current round in which image x.jpg has a single rating. -/
def currentRoundX : List AnnotationRecord :=
  [⟨"J", "c.jpg", 0, "w1", ["Cat"]⟩, ⟨"J", "c.jpg", 0, "w2", ["Cat"]⟩,
   ⟨"J", "c.jpg", 0, "w3", ["Cat"]⟩, ⟨"J", "x.jpg", 1, "w1", ["Dog"]⟩]

/-- A historical round in which x.jpg was rated by two further workers. -/
def previousRoundsX : List (List AnnotationRecord) :=
  [[⟨"P", "x.jpg", 0, "w2", ["Dog"]⟩, ⟨"P", "x.jpg", 0, "w3", ["Dog"]⟩]]

/-- Quality dicts of one experiment (the unit test's unreliable round,
shrunk): worker a disagrees once out of five, worker b always agrees. -/
def qualityDictsA : List (List (String × Nat)) :=
  [[("a", 0), ("b", 1)], [("a", 1), ("b", 1)], [("a", 1), ("b", 1)],
   [("a", 1), ("b", 1)], [("a", 1), ("b", 1)]]

/-- Three records by three distinct workers for the filter-step witness. -/
def mixedRaw : List AnnotationRecord :=
  [⟨"J", "a.jpg", 0, "w1", ["Cat"]⟩, ⟨"J", "a.jpg", 0, "w2", ["Dog"]⟩,
   ⟨"J", "a.jpg", 0, "w3", ["Cat"]⟩]

/-- A reliability table marking w1 reliable and w2 unreliable; w3 has no row
at all. -/
def mixedReliability : List WorkerRow :=
  [WorkerRow.mk "w1" (meanQ [1]) 0 true, WorkerRow.mk "w2" (meanQ [0]) 0 false]

/-- An annotation set whose only label id points at index 1, absent from the
embedded manifest (which only lists index 0). -/
def missingIndexSet : AnnotationSet :=
  ⟨[⟨0, "s3://bucket/a.jpg"⟩], [("w1", [("label-1", ["Cat"])])]⟩

/-- An empty placeholder summary, used only to select rows of computed
tables inside closed witness statements. -/
def blankSummary : ImageSummary :=
  ⟨[], [], false, 0, 0, [], "", "", false, false, none, []⟩

/-- Placeholder consensus row (see `blankSummary`). -/
def blankRow : ConsensusRow := ⟨"", "", blankSummary⟩

/-! ### The cross-multiplied comparison agrees with the rational one -/

theorem ratMulLt_iff (p : ℚ) (n c : Nat) :
    ratMulLt p n c = true ↔ p * (n : ℚ) < (c : ℚ) := by
  rw [ratMulLt, decide_eq_true_iff]
  have hden : (0 : ℚ) < (p.den : ℚ) := by exact_mod_cast p.den_pos
  have h1 : p * (n : ℚ) = (p.num : ℚ) * (n : ℚ) / (p.den : ℚ) := by
    conv_lhs => rw [← Rat.num_div_den p]
    ring
  rw [h1, div_lt_iff₀ hden]
  constructor <;> intro h <;> exact_mod_cast h

theorem ratMulLt_mean_iff (p : ℚ) (l : List Nat) (h : l ≠ []) :
    ratMulLt p l.length l.sum = true ↔ meanQ l > p := by
  have hlen : (0 : ℚ) < (l.length : ℚ) := by
    have : 0 < l.length := List.length_pos.mpr h
    exact_mod_cast this
  rw [ratMulLt_iff, meanQ, gt_iff_lt, lt_div_iff₀ hlen, mul_comm]

/-! ### The comparator `strLt` is the lexicographic string order -/

theorem charListLt_iff (x y : List Char) :
    charListLt x y = true ↔ List.Lex (· < ·) x y := by
  induction x generalizing y with
  | nil =>
      cases y with
      | nil =>
          constructor
          · intro h; cases h
          · intro h; exact absurd h (List.Lex.not_nil_right _ _)
      | cons b bs =>
          constructor
          · intro _; exact List.Lex.nil
          · intro _; rfl
  | cons a as ih =>
      cases y with
      | nil =>
          constructor
          · intro h; cases h
          · intro h; exact absurd h (List.Lex.not_nil_right _ _)
      | cons b bs =>
          rw [charListLt]
          by_cases hab : a < b
          · simp only [hab, if_true, true_iff]
            exact List.Lex.rel hab
          · by_cases hba : b < a
            · simp only [hab, hba, if_false, if_true, Bool.false_eq_true,
                false_iff]
              intro hlex
              cases hlex with
              | rel h => exact hab h
              | cons h => exact lt_irrefl a hba
            · have heq : a = b := le_antisymm (not_lt.mp hba) (not_lt.mp hab)
              subst heq
              simp only [hab, hba, if_false]
              rw [ih bs]
              constructor
              · exact fun h => List.Lex.cons h
              · intro hlex
                cases hlex with
                | rel h => exact absurd h hab
                | cons h => exact h

theorem strLt_iff (a b : String) : strLt a b = true ↔ a < b := by
  rw [strLt, charListLt_iff, String.lt_iff_toList_lt]
  exact Iff.rfl

theorem strLt_false_iff (a b : String) : strLt a b = false ↔ b ≤ a := by
  constructor
  · intro h
    by_contra hba
    have hlt : a < b := not_le.mp hba
    rw [← strLt_iff, h] at hlt
    cases hlt
  · intro h
    cases h' : strLt a b with
    | false => rfl
    | true => exact absurd ((strLt_iff a b).mp h') (not_lt.mpr h)

/-! ### The stable insertion sort: permutation and sortedness -/

theorem insertSorted_perm {α : Type} (lt : α → α → Bool) (x : α)
    (l : List α) : (insertSorted lt x l).Perm (x :: l) := by
  induction l with
  | nil => exact List.Perm.refl _
  | cons y ys ih =>
      rw [insertSorted]
      by_cases h : lt x y = true
      · simp [h]
      · simp only [h, if_false]
        exact (List.Perm.cons y ih).trans (List.Perm.swap x y ys)

theorem sortBy_perm {α : Type} (lt : α → α → Bool) (l : List α) :
    (sortBy lt l).Perm l := by
  induction l with
  | nil => exact List.Perm.refl _
  | cons x xs ih =>
      exact (insertSorted_perm lt x (sortBy lt xs)).trans (List.Perm.cons x ih)

theorem mem_sortBy {α : Type} (lt : α → α → Bool) (l : List α) (a : α) :
    a ∈ sortBy lt l ↔ a ∈ l :=
  (sortBy_perm lt l).mem_iff

theorem insertSorted_sorted {α : Type} (lt : α → α → Bool)
    (le : α → α → Prop) (h1 : ∀ a b, lt a b = true → le a b)
    (h2 : ∀ a b, lt a b = false → le b a)
    (htrans : ∀ a b c, le a b → le b c → le a c) (x : α) (l : List α)
    (hl : l.Pairwise le) : (insertSorted lt x l).Pairwise le := by
  induction l with
  | nil => simp [insertSorted]
  | cons y ys ih =>
      rw [insertSorted]
      rcases List.pairwise_cons.mp hl with ⟨hy, hys⟩
      by_cases h : lt x y = true
      · simp only [h, if_true]
        refine List.pairwise_cons.mpr ⟨?_, hl⟩
        intro z hz
        rcases List.mem_cons.mp hz with hz | hz
        · exact hz ▸ h1 x y h
        · exact htrans x y z (h1 x y h) (hy z hz)
      · simp only [h, if_false]
        have hfalse : lt x y = false := by
          cases h' : lt x y with
          | false => rfl
          | true => exact absurd h' h
        refine List.pairwise_cons.mpr ⟨?_, ih hys⟩
        intro z hz
        rcases List.mem_cons.mp
            ((insertSorted_perm lt x ys).mem_iff.mp hz) with hz | hz
        · exact hz ▸ h2 x y hfalse
        · exact hy z hz

theorem sortBy_sorted {α : Type} (lt : α → α → Bool) (le : α → α → Prop)
    (h1 : ∀ a b, lt a b = true → le a b)
    (h2 : ∀ a b, lt a b = false → le b a)
    (htrans : ∀ a b c, le a b → le b c → le a c) (l : List α) :
    (sortBy lt l).Pairwise le := by
  induction l with
  | nil => simp [sortBy]
  | cons x xs ih => exact insertSorted_sorted lt le h1 h2 htrans x _ ih

theorem sortStrings_sorted (l : List String) :
    (sortStrings l).Sorted (· ≤ ·) :=
  sortBy_sorted strLt (· ≤ ·)
    (fun a b h => le_of_lt ((strLt_iff a b).mp h))
    (fun a b h => (strLt_false_iff a b).mp h)
    (fun _ _ _ hab hbc => le_trans hab hbc) l

theorem mem_sortStrings (l : List String) (a : String) :
    a ∈ sortStrings l ↔ a ∈ l :=
  mem_sortBy strLt l a

theorem sortStrings_nodup (l : List String) (h : l.Nodup) :
    (sortStrings l).Nodup :=
  (sortBy_perm strLt l).nodup_iff.mpr h

/-! ### Counter keys and the maximum label frequency -/

theorem mem_dedupFoldAux {α : Type} [DecidableEq α] (l : List α) :
    ∀ (acc : List α) (x : α),
      (x ∈ l.foldl (fun acc y => if y ∈ acc then acc else acc ++ [y]) acc ↔
        x ∈ acc ∨ x ∈ l) := by
  induction l with
  | nil => intro acc x; simp
  | cons y ys ih =>
      intro acc x
      rw [List.foldl_cons]
      by_cases hy : y ∈ acc
      · simp only [hy, if_true]
        rw [ih acc x, List.mem_cons]
        constructor
        · rintro (h | h)
          · exact Or.inl h
          · exact Or.inr (Or.inr h)
        · rintro (h | h | h)
          · exact Or.inl h
          · exact Or.inl (h ▸ hy)
          · exact Or.inr h
      · simp only [hy, if_false]
        rw [ih (acc ++ [y]) x, List.mem_append, List.mem_singleton,
          List.mem_cons]
        tauto

theorem dedupFold_nodup {α : Type} [DecidableEq α] (l : List α) :
    ∀ acc : List α, acc.Nodup →
      (l.foldl (fun acc y => if y ∈ acc then acc else acc ++ [y]) acc).Nodup := by
  induction l with
  | nil => intro acc h; simpa using h
  | cons y ys ih =>
      intro acc h
      rw [List.foldl_cons]
      by_cases hy : y ∈ acc
      · simp only [hy, if_true]
        exact ih acc h
      · simp only [hy, if_false]
        refine ih (acc ++ [y]) ?_
        simpa [List.nodup_append] using ⟨h, hy⟩

theorem mem_pyDedup {α : Type} [DecidableEq α] (l : List α) (x : α) :
    x ∈ pyDedup l ↔ x ∈ l := by
  rw [pyDedup, mem_dedupFoldAux]
  simp

theorem pyDedup_nodup {α : Type} [DecidableEq α] (l : List α) :
    (pyDedup l).Nodup :=
  dedupFold_nodup l [] List.nodup_nil

theorem mem_counterKeys (l : List String) (x : String) :
    x ∈ counterKeys l ↔ x ∈ l :=
  mem_pyDedup l x

theorem counterKeys_nodup (l : List String) : (counterKeys l).Nodup :=
  pyDedup_nodup l

theorem mem_keyPairs (rs : List AnnotationRecord) (k : String × String) :
    k ∈ keyPairs rs ↔ ∃ r ∈ rs, (r.image_filename, r.labelling_job_name) = k := by
  rw [keyPairs, mem_pyDedup]
  simp

theorem le_foldl_max (f : String → Nat) (l : List String) :
    ∀ a : Nat, a ≤ l.foldl (fun m k => max m (f k)) a := by
  induction l with
  | nil => intro a; simp
  | cons x xs ih =>
      intro a
      rw [List.foldl_cons]
      exact le_trans (le_max_left a (f x)) (ih (max a (f x)))

theorem mem_le_foldl_max (f : String → Nat) (l : List String) :
    ∀ (a : Nat) (k : String), k ∈ l → f k ≤ l.foldl (fun m k => max m (f k)) a := by
  induction l with
  | nil => intro a k hk; cases hk
  | cons x xs ih =>
      intro a k hk
      rw [List.foldl_cons]
      rcases List.mem_cons.mp hk with hk | hk
      · subst hk
        exact le_trans (le_max_right a (f k)) (le_foldl_max f xs _)
      · exact ih (max a (f x)) k hk

theorem foldl_max_le (f : String → Nat) (l : List String) :
    ∀ (a b : Nat), a ≤ b → (∀ k ∈ l, f k ≤ b) →
      l.foldl (fun m k => max m (f k)) a ≤ b := by
  induction l with
  | nil => intro a b ha _; simpa using ha
  | cons x xs ih =>
      intro a b ha hl
      rw [List.foldl_cons]
      refine ih (max a (f x)) b ?_ (fun k hk => hl k (List.mem_cons.mpr (Or.inr hk)))
      exact max_le ha (hl x (List.mem_cons.mpr (Or.inl rfl)))

theorem foldl_max_attained (f : String → Nat) (l : List String) :
    ∀ a : Nat, l.foldl (fun m k => max m (f k)) a = a ∨
      ∃ k ∈ l, l.foldl (fun m k => max m (f k)) a = f k := by
  induction l with
  | nil => intro a; exact Or.inl rfl
  | cons x xs ih =>
      intro a
      rw [List.foldl_cons]
      rcases ih (max a (f x)) with h | ⟨k, hk, h⟩
      · rcases max_cases a (f x) with ⟨hm, _⟩ | ⟨hm, _⟩
        · exact Or.inl (h.trans hm)
        · exact Or.inr ⟨x, List.mem_cons.mpr (Or.inl rfl), h.trans hm⟩
      · exact Or.inr ⟨k, List.mem_cons.mpr (Or.inr hk), h⟩

theorem count_le_maxFreq (l : List String) (k : String) (hk : k ∈ l) :
    l.count k ≤ maxFreq l :=
  mem_le_foldl_max (fun k => l.count k) l 0 k hk

theorem maxFreq_attained (l : List String) (h : l ≠ []) :
    ∃ k ∈ l, l.count k = maxFreq l := by
  rcases foldl_max_attained (fun k => l.count k) l 0 with h0 | ⟨k, hk, hke⟩
  · exfalso
    rcases List.exists_mem_of_ne_nil l h with ⟨x, hx⟩
    have hcx : l.count x ≤ 0 := h0 ▸ count_le_maxFreq l x hx
    have : 0 < l.count x := List.count_pos_iff.mpr hx
    omega
  · exact ⟨k, hk, hke.symm⟩

theorem gssfi_isSome (rs : List AnnotationRecord) (n : Nat) (p : ℚ)
    (dec : List (String × String)) (h : allLabels rs ≠ []) :
    ∃ s, get_summary_stats_for_image rs n p dec = some s := by
  simp only [get_summary_stats_for_image]
  rw [if_neg]
  · exact ⟨_, rfl⟩
  · simpa [List.isEmpty_iff, allLabels] using h

theorem gssfi_some_elim (rs : List AnnotationRecord) (n : Nat) (p : ℚ)
    (dec : List (String × String)) (s : ImageSummary)
    (h : get_summary_stats_for_image rs n p dec = some s) :
    s.worker_list = rs.map (fun r => r.worker_id) ∧
    s.labels = allLabels rs ∧
    s.no_most_common_labels = mostCommonCount (allLabels rs) ∧
    s.no_eligible_workers = rs.length ∧
    s.majority_label = sortStrings ((counterKeys (allLabels rs)).filter
      (fun k => (allLabels rs).count k = mostCommonCount (allLabels rs))) ∧
    s.is_label_certain = (decide (n ≤ mostCommonCount (allLabels rs)) &&
      ratMulLt p rs.length (mostCommonCount (allLabels rs))) ∧
    s.is_decoy = false ∧ s.decoy_label = none ∧
    (s.is_label_certain = true →
      s.worker_quality = rs.foldl (fun d r =>
        dictSet d r.worker_id
          (if r.labels.any (fun l => l ∈ s.majority_label) then 1 else 0)) []) ∧
    (s.is_label_certain = false → s.worker_quality = []) := by
  simp only [get_summary_stats_for_image, allLabels] at h ⊢
  by_cases he : ((rs.map (fun r => r.labels)).flatten).isEmpty
  · rw [if_pos he] at h
    cases h
  · rw [if_neg he] at h
    injection h with h
    subst h
    refine ⟨rfl, rfl, rfl, by simp, rfl, by simp [ge_iff_le], rfl, rfl, ?_, ?_⟩
    · intro htrue
      dsimp only at htrue ⊢
      rw [htrue]
      simp
    · intro hfalse
      dsimp only at hfalse ⊢
      rw [hfalse]
      simp only [Bool.false_eq_true, if_false]
      have hfold : ∀ (l : List AnnotationRecord) (d : List (String × Nat)),
          l.foldl (fun d _ => d) d = d := by
        intro l
        induction l with
        | nil => intro d; rfl
        | cons x xs ih => intro d; exact ih d
      exact hfold rs []

theorem mostCommonCount_eq_maxFreq (l : List String) :
    mostCommonCount l = maxFreq l := by
  apply le_antisymm
  · exact foldl_max_le (fun k => l.count k) (counterKeys l) 0 (maxFreq l)
      (Nat.zero_le _)
      (fun k hk => count_le_maxFreq l k ((mem_counterKeys l k).mp hk))
  · exact foldl_max_le (fun k => l.count k) l 0 (mostCommonCount l)
      (Nat.zero_le _)
      (fun k hk => mem_le_foldl_max (fun k => l.count k) (counterKeys l) 0 k
        ((mem_counterKeys l k).mpr hk))

/-! ### C1: the certainty rule -/

theorem allLabels_ne_nil (rs : List AnnotationRecord) (hne : rs ≠ [])
    (hlab : ∀ r ∈ rs, r.labels ≠ []) : allLabels rs ≠ [] := by
  cases rs with
  | nil => exact absurd rfl hne
  | cons r rest =>
      have hr := hlab r (List.mem_cons.mpr (Or.inl rfl))
      simp only [allLabels, List.map_cons, List.flatten_cons, ne_eq,
        List.append_eq_nil]
      intro h
      exact hr h.1

/-- C1: for a non-empty group of annotation records (each carrying at least
one label), the summary marks the label certain iff the maximum label
frequency is at least `min_ratings_no` and strictly exceeds
`min_ratings_prop` times the number of contributing worker records; both
conditions are conjoined. -/
theorem certainty_iff_both_thresholds (rs : List AnnotationRecord) (n : Nat)
    (p : ℚ) (dec : List (String × String)) (hne : rs ≠ [])
    (hlab : ∀ r ∈ rs, r.labels ≠ []) :
    ∃ s, get_summary_stats_for_image rs n p dec = some s ∧
      (s.is_label_certain = true ↔
        maxFreq (allLabels rs) ≥ n ∧
          (maxFreq (allLabels rs) : ℚ) > p * (rs.length : ℚ)) := by
  obtain ⟨s, hs⟩ := gssfi_isSome rs n p dec (allLabels_ne_nil rs hne hlab)
  refine ⟨s, hs, ?_⟩
  obtain ⟨-, -, -, -, -, hcert, -, -, -, -⟩ := gssfi_some_elim rs n p dec s hs
  rw [hcert, mostCommonCount_eq_maxFreq, Bool.and_eq_true, decide_eq_true_iff,
    ratMulLt_iff]

/-- Witness for C1: the spec's Cat, Dog, Cat scenario with
`min_ratings_no = 2`, `min_ratings_prop = 0.5` is certain. -/
theorem certainty_iff_both_thresholds_witness :
    ∃ s, get_summary_stats_for_image threeWorkerGroup 2 ratHalf [] = some s ∧
      s.is_label_certain = true := by
  obtain ⟨s, hs, hiff⟩ := certainty_iff_both_thresholds threeWorkerGroup 2
    ratHalf [] (by decide) (by decide)
  refine ⟨s, hs, hiff.mpr ⟨by decide, ?_⟩⟩
  have h2 : maxFreq (allLabels threeWorkerGroup) = 2 := by decide
  have h3 : threeWorkerGroup.length = 3 := by decide
  rw [h2, h3]
  exact (ratMulLt_iff ratHalf 3 2).mp (by decide)

/-! ### C4: ties, lexicographic order, and the tied count -/

/-- C4: the majority-label set contains exactly the labels whose frequency in
the flattened label multiset equals the maximum frequency (ties all reported),
without duplicates and in lexicographic order, and the certainty decision is
evaluated against that tied maximum count. -/
theorem majority_set_ties_sorted (rs : List AnnotationRecord) (n : Nat)
    (p : ℚ) (dec : List (String × String)) (hne : rs ≠ [])
    (hlab : ∀ r ∈ rs, r.labels ≠ []) :
    ∃ s, get_summary_stats_for_image rs n p dec = some s ∧
      (∀ l, l ∈ s.majority_label ↔
        l ∈ allLabels rs ∧ (allLabels rs).count l = maxFreq (allLabels rs)) ∧
      s.majority_label.Sorted (· ≤ ·) ∧
      s.majority_label.Nodup ∧
      s.no_most_common_labels = maxFreq (allLabels rs) ∧
      (s.is_label_certain = true ↔
        maxFreq (allLabels rs) ≥ n ∧
          (maxFreq (allLabels rs) : ℚ) > p * (rs.length : ℚ)) := by
  obtain ⟨s, hs⟩ := gssfi_isSome rs n p dec (allLabels_ne_nil rs hne hlab)
  obtain ⟨-, -, hmc, -, hmaj, hcert, -, -, -, -⟩ :=
    gssfi_some_elim rs n p dec s hs
  refine ⟨s, hs, ?_, ?_, ?_, ?_, ?_⟩
  · intro l
    simp only [hmaj, mem_sortStrings, List.mem_filter, mem_counterKeys,
      mostCommonCount_eq_maxFreq, decide_eq_true_iff]
  · exact hmaj ▸ sortStrings_sorted _
  · exact hmaj ▸ sortStrings_nodup _ ((counterKeys_nodup _).filter _)
  · rw [hmc, mostCommonCount_eq_maxFreq]
  · rw [hcert, mostCommonCount_eq_maxFreq, Bool.and_eq_true,
      decide_eq_true_iff, ratMulLt_iff]

/-- Witness for C4 at the two-way tie scenario. -/
theorem majority_set_ties_sorted_witness :
    ∃ s, get_summary_stats_for_image tieGroup 2 ratHalf [] = some s ∧
      (∀ l, l ∈ s.majority_label ↔
        l ∈ allLabels tieGroup ∧
          (allLabels tieGroup).count l = maxFreq (allLabels tieGroup)) ∧
      s.majority_label.Sorted (· ≤ ·) ∧
      s.majority_label.Nodup ∧
      s.no_most_common_labels = maxFreq (allLabels tieGroup) ∧
      (s.is_label_certain = true ↔
        maxFreq (allLabels tieGroup) ≥ 2 ∧
          (maxFreq (allLabels tieGroup) : ℚ) > ratHalf * (tieGroup.length : ℚ)) :=
  majority_set_ties_sorted tieGroup 2 ratHalf [] (by decide) (by decide)

/-! ### C5: the decoy lookup never fires -/

/-- C5: at the failing input the group's image filename `d.jpg` is a key of
the supplied decoy map, yet the code reports `is_decoy = false` and no decoy
label: the lookup key `raw_labels['image_filename'].iloc(0)` is the indexer
object itself (not the first filename), so the dict probe raises `KeyError`
and the fallback branch runs unconditionally. -/
theorem decoy_lookup_never_fires :
    alookup [("d.jpg", "Cat")] "d.jpg" = some "Cat" ∧
    decoyGroup.head?.map (fun r => r.image_filename) = some "d.jpg" ∧
    (get_summary_stats_for_image decoyGroup 2 ratHalf [("d.jpg", "Cat")]).map
      (fun s => (s.is_decoy, s.decoy_label)) = some (false, none) := by
  decide

/-! ### C2: worker quality is recorded exactly for certain images -/

theorem alookup_dictSet_self {α β : Type} [DecidableEq α]
    (d : List (α × β)) (k : α) (v : β) :
    alookup (dictSet d k v) k = some v := by
  induction d with
  | nil => simp [dictSet, alookup]
  | cons p rest ih =>
      obtain ⟨k', v'⟩ := p
      rw [dictSet]
      by_cases h : k' = k
      · simp [h, alookup]
      · simp [h, alookup, ih]

theorem alookup_dictSet_ne {α β : Type} [DecidableEq α]
    (d : List (α × β)) (k w : α) (v : β) (h : w ≠ k) :
    alookup (dictSet d k v) w = alookup d w := by
  induction d with
  | nil => simp [dictSet, alookup, Ne.symm h]
  | cons p rest ih =>
      obtain ⟨k', v'⟩ := p
      rw [dictSet]
      by_cases hk : k' = k
      · subst hk
        simp [alookup, Ne.symm h]
      · simp only [hk, if_false]
        rw [alookup, alookup, ih]

theorem mem_dictSet_key {α β : Type} [DecidableEq α]
    (d : List (α × β)) (k : α) (v : β) (q : α × β)
    (h : q ∈ dictSet d k v) : q ∈ d ∨ q.1 = k := by
  induction d with
  | nil => simp [dictSet] at h; simp [h]
  | cons p rest ih =>
      obtain ⟨k', v'⟩ := p
      rw [dictSet] at h
      by_cases hk : k' = k
      · simp only [hk, if_true] at h
        rcases List.mem_cons.mp h with h | h
        · exact Or.inr (by rw [h])
        · exact Or.inl (List.mem_cons.mpr (Or.inr h))
      · simp only [hk, if_false] at h
        rcases List.mem_cons.mp h with h | h
        · exact Or.inl (List.mem_cons.mpr (Or.inl h))
        · rcases ih h with h' | h'
          · exact Or.inl (List.mem_cons.mpr (Or.inr h'))
          · exact Or.inr h'

theorem wqFold_alookup_not_mem (g : AnnotationRecord → Nat)
    (rs : List AnnotationRecord) :
    ∀ (d : List (String × Nat)) (w : String),
      (∀ r ∈ rs, r.worker_id ≠ w) →
      alookup (rs.foldl (fun d r => dictSet d r.worker_id (g r)) d) w =
        alookup d w := by
  induction rs with
  | nil => intro d w _; rfl
  | cons r rest ih =>
      intro d w hw
      rw [List.foldl_cons]
      rw [ih (dictSet d r.worker_id (g r)) w
        (fun r' hr' => hw r' (List.mem_cons.mpr (Or.inr hr')))]
      exact alookup_dictSet_ne d r.worker_id w (g r)
        (fun he => hw r (List.mem_cons.mpr (Or.inl rfl)) he.symm)

theorem wqFold_alookup (g : AnnotationRecord → Nat)
    (rs : List AnnotationRecord) :
    ∀ (d : List (String × Nat)) (r0 : AnnotationRecord), r0 ∈ rs →
      (rs.map (fun r => r.worker_id)).Nodup →
      alookup (rs.foldl (fun d r => dictSet d r.worker_id (g r)) d)
        r0.worker_id = some (g r0) := by
  induction rs with
  | nil => intro d r0 h _; cases h
  | cons r rest ih =>
      intro d r0 h0 hnd
      rw [List.map_cons, List.nodup_cons] at hnd
      rw [List.foldl_cons]
      rcases List.mem_cons.mp h0 with h0 | h0
      · subst h0
        rw [wqFold_alookup_not_mem g rest (dictSet d r0.worker_id (g r0))
          r0.worker_id
          (fun r' hr' he => hnd.1 (he ▸ List.mem_map_of_mem _ hr'))]
        exact alookup_dictSet_self d r0.worker_id (g r0)
      · exact ih (dictSet d r.worker_id (g r)) r0 h0 hnd.2

theorem wqFold_keys (g : AnnotationRecord → Nat)
    (rs : List AnnotationRecord) :
    ∀ (d : List (String × Nat)) (q : String × Nat),
      q ∈ rs.foldl (fun d r => dictSet d r.worker_id (g r)) d →
      q ∈ d ∨ ∃ r ∈ rs, r.worker_id = q.1 := by
  induction rs with
  | nil => intro d q h; exact Or.inl h
  | cons r rest ih =>
      intro d q h
      rw [List.foldl_cons] at h
      rcases ih (dictSet d r.worker_id (g r)) q h with h' | h'
      · rcases mem_dictSet_key d r.worker_id (g r) q h' with h'' | h''
        · exact Or.inl h''
        · exact Or.inr ⟨r, List.mem_cons.mpr (Or.inl rfl), h''.symm⟩
      · rcases h' with ⟨r', hr', he⟩
        exact Or.inr ⟨r', List.mem_cons.mpr (Or.inr hr'), he⟩

theorem foldl_drop_all {α β : Type} (l : List α) (d : β) :
    l.foldl (fun d _ => d) d = d := by
  induction l with
  | nil => rfl
  | cons x xs ih => exact ih

/-- C2: the per-image worker-quality mapping is empty whenever the label is
not certain; when it is certain it maps every contributing worker to 1 if any
of that worker's submitted labels is in the majority-label set and to 0
otherwise, and mentions only contributing workers. -/
theorem worker_quality_iff_certain (rs : List AnnotationRecord) (n : Nat)
    (p : ℚ) (dec : List (String × String)) (hne : rs ≠ [])
    (hlab : ∀ r ∈ rs, r.labels ≠ [])
    (hnd : (rs.map (fun r => r.worker_id)).Nodup) :
    ∃ s, get_summary_stats_for_image rs n p dec = some s ∧
      (s.is_label_certain = false → s.worker_quality = []) ∧
      (s.is_label_certain = true → ∀ r ∈ rs,
        alookup s.worker_quality r.worker_id =
          some (if r.labels.any (fun l => l ∈ s.majority_label) then 1 else 0)) ∧
      (∀ q ∈ s.worker_quality, ∃ r ∈ rs, r.worker_id = q.1) := by
  obtain ⟨s, hs⟩ := gssfi_isSome rs n p dec (allLabels_ne_nil rs hne hlab)
  obtain ⟨-, -, -, -, -, -, -, -, hwqt, hwqf⟩ :=
    gssfi_some_elim rs n p dec s hs
  refine ⟨s, hs, hwqf, ?_, ?_⟩
  · intro htrue r hr
    rw [hwqt htrue]
    exact wqFold_alookup _ rs [] r hr hnd
  · intro q hq
    cases hc : s.is_label_certain with
    | true =>
        rw [hwqt hc] at hq
        rcases wqFold_keys _ rs [] q hq with h | h
        · cases h
        · exact h
    | false =>
        rw [hwqf hc] at hq
        cases hq

/-- Witness for C2 at the spec's Cat, Dog, Cat scenario. -/
theorem worker_quality_iff_certain_witness :
    ∃ s, get_summary_stats_for_image threeWorkerGroup 2 ratHalf [] = some s ∧
      (s.is_label_certain = false → s.worker_quality = []) ∧
      (s.is_label_certain = true → ∀ r ∈ threeWorkerGroup,
        alookup s.worker_quality r.worker_id =
          some (if r.labels.any (fun l => l ∈ s.majority_label) then 1 else 0)) ∧
      (∀ q ∈ s.worker_quality, ∃ r ∈ threeWorkerGroup, r.worker_id = q.1) :=
  worker_quality_iff_certain threeWorkerGroup 2 ratHalf [] (by decide)
    (by decide) (by decide)

/-! ### C3: worker reliability rows -/

theorem alookup_addRating_self (acc : List (String × List Nat)) (w : String)
    (r : Nat) :
    alookup (addRating acc w r) w = some ((alookup acc w).getD [] ++ [r]) := by
  induction acc with
  | nil => simp [addRating, alookup]
  | cons p rest ih =>
      obtain ⟨k, l⟩ := p
      rw [addRating]
      by_cases hk : k = w
      · subst hk
        simp [alookup]
      · simp only [hk, if_false]
        rw [alookup, if_neg hk, alookup, if_neg hk, ih]

theorem alookup_addRating_ne (acc : List (String × List Nat)) (w w' : String)
    (r : Nat) (h : w' ≠ w) :
    alookup (addRating acc w r) w' = alookup acc w' := by
  induction acc with
  | nil => simp [addRating, alookup, Ne.symm h]
  | cons p rest ih =>
      obtain ⟨k, l⟩ := p
      rw [addRating]
      by_cases hk : k = w
      · subst hk
        simp [alookup, Ne.symm h]
      · simp only [hk, if_false]
        rw [alookup, alookup, ih]

theorem alookup_foldPairs (q : List (String × Nat)) :
    ∀ (acc : List (String × List Nat)) (w : String),
      (alookup (q.foldl (fun a pr => addRating a pr.1 pr.2) acc) w).getD [] =
        (alookup acc w).getD [] ++
          (q.filter (fun pr => pr.1 = w)).map (fun pr => pr.2) := by
  induction q with
  | nil => intro acc w; simp
  | cons pr q' ih =>
      intro acc w
      rw [List.foldl_cons, ih]
      by_cases hw : pr.1 = w
      · rw [List.filter_cons_of_pos (by simpa using hw)]
        rw [← hw] at *
        rw [alookup_addRating_self]
        simp [List.append_assoc]
      · rw [List.filter_cons_of_neg (by simpa using hw)]
        rw [alookup_addRating_ne acc pr.1 w pr.2 (fun he => hw he.symm)]

theorem alookup_poolRatings (qs : List (List (String × Nat))) (w : String) :
    (alookup (poolRatings qs) w).getD [] = observations qs w := by
  suffices h : ∀ acc : List (String × List Nat),
      (alookup (qs.foldl (fun acc q =>
        q.foldl (fun a pr => addRating a pr.1 pr.2) acc) acc) w).getD [] =
        (alookup acc w).getD [] ++ observations qs w by
    have := h []
    simpa [poolRatings, alookup] using this
  induction qs with
  | nil => intro acc; simp [observations]
  | cons q qs' ih =>
      intro acc
      rw [List.foldl_cons, ih, alookup_foldPairs]
      simp [observations, List.append_assoc]

theorem alookup_some_mem {α β : Type} [DecidableEq α]
    (d : List (α × β)) (w : α) (v : β) (h : alookup d w = some v) :
    (w, v) ∈ d := by
  induction d with
  | nil => cases h
  | cons p rest ih =>
      rw [alookup] at h
      by_cases hp : p.1 = w
      · rw [if_pos hp] at h
        injection h with h
        have hpe : (w, v) = p := by
          rw [← hp, ← h]
        exact List.mem_cons.mpr (Or.inl hpe)
      · rw [if_neg hp] at h
        exact List.mem_cons.mpr (Or.inr (ih h))

theorem mem_alookup_of_keys_nodup {α β : Type} [DecidableEq α]
    (d : List (α × β)) (w : α) (v : β)
    (hnd : (d.map (fun p => p.1)).Nodup) (h : (w, v) ∈ d) :
    alookup d w = some v := by
  induction d with
  | nil => cases h
  | cons p rest ih =>
      rw [List.map_cons, List.nodup_cons] at hnd
      rcases List.mem_cons.mp h with h | h
      · rw [← h]
        rw [alookup, if_pos rfl]
      · rw [alookup]
        by_cases hp : p.1 = w
        · exfalso
          apply hnd.1
          rw [hp]
          exact List.mem_map_of_mem _ h
        · rw [if_neg hp]
          exact ih hnd.2 h

theorem keys_addRating (acc : List (String × List Nat)) (w : String)
    (r : Nat) :
    (addRating acc w r).map (fun p => p.1) =
      if w ∈ acc.map (fun p => p.1) then acc.map (fun p => p.1)
      else acc.map (fun p => p.1) ++ [w] := by
  induction acc with
  | nil => simp [addRating]
  | cons p rest ih =>
      obtain ⟨k, l⟩ := p
      rw [addRating]
      by_cases hk : k = w
      · subst hk
        simp
      · simp only [hk, if_false, List.map_cons, List.mem_cons, ih]
        by_cases hw : w ∈ rest.map (fun p => p.1)
        · simp [hw, Ne.symm hk]
        · simp [hw, Ne.symm hk]

theorem keys_nodup_addRating (acc : List (String × List Nat)) (w : String)
    (r : Nat) (h : (acc.map (fun p => p.1)).Nodup) :
    ((addRating acc w r).map (fun p => p.1)).Nodup := by
  rw [keys_addRating]
  by_cases hw : w ∈ acc.map (fun p => p.1)
  · rw [if_pos hw]; exact h
  · rw [if_neg hw]
    refine List.Nodup.append h (List.nodup_singleton w) ?_
    intro x hx hx'
    rw [List.mem_singleton] at hx'
    subst hx'
    exact hw hx

theorem keys_nodup_foldPairs (q : List (String × Nat)) :
    ∀ acc : List (String × List Nat), (acc.map (fun p => p.1)).Nodup →
      ((q.foldl (fun a pr => addRating a pr.1 pr.2) acc).map
        (fun p => p.1)).Nodup := by
  induction q with
  | nil => intro acc h; exact h
  | cons pr q' ih =>
      intro acc h
      rw [List.foldl_cons]
      exact ih _ (keys_nodup_addRating acc pr.1 pr.2 h)

theorem poolRatings_keys_nodup (qs : List (List (String × Nat))) :
    ((poolRatings qs).map (fun p => p.1)).Nodup := by
  suffices h : ∀ acc : List (String × List Nat),
      (acc.map (fun p => p.1)).Nodup →
      ((qs.foldl (fun acc q =>
        q.foldl (fun a pr => addRating a pr.1 pr.2) acc) acc).map
          (fun p => p.1)).Nodup from h [] List.nodup_nil
  induction qs with
  | nil => intro acc h; exact h
  | cons q qs' ih =>
      intro acc h
      rw [List.foldl_cons]
      exact ih _ (keys_nodup_foldPairs q acc h)

theorem values_ne_nil_addRating (acc : List (String × List Nat)) (w : String)
    (r : Nat) (h : ∀ p ∈ acc, p.2 ≠ []) :
    ∀ p ∈ addRating acc w r, p.2 ≠ [] := by
  induction acc with
  | nil =>
      intro p hp
      rw [addRating] at hp
      rcases List.mem_singleton.mp hp with h'
      rw [h']
      simp
  | cons q rest ih =>
      obtain ⟨k, l⟩ := q
      intro p hp
      rw [addRating] at hp
      by_cases hk : k = w
      · simp only [hk, if_true] at hp
        rcases List.mem_cons.mp hp with h' | h'
        · rw [h']
          simp
        · exact h p (List.mem_cons.mpr (Or.inr h'))
      · simp only [hk, if_false] at hp
        rcases List.mem_cons.mp hp with h' | h'
        · rw [h']
          exact h (k, l) (List.mem_cons.mpr (Or.inl rfl))
        · exact ih (fun p' hp' => h p' (List.mem_cons.mpr (Or.inr hp'))) p h'

theorem poolRatings_values_ne_nil (qs : List (List (String × Nat))) :
    ∀ p ∈ poolRatings qs, p.2 ≠ [] := by
  suffices h : ∀ acc : List (String × List Nat), (∀ p ∈ acc, p.2 ≠ []) →
      ∀ p ∈ qs.foldl (fun acc q =>
        q.foldl (fun a pr => addRating a pr.1 pr.2) acc) acc, p.2 ≠ [] from
    h [] (by intro p hp; cases hp)
  have hinner : ∀ (q : List (String × Nat))
      (acc : List (String × List Nat)), (∀ p ∈ acc, p.2 ≠ []) →
      ∀ p ∈ q.foldl (fun a pr => addRating a pr.1 pr.2) acc, p.2 ≠ [] := by
    intro q
    induction q with
    | nil => intro acc h; exact h
    | cons pr q' ih =>
        intro acc h
        rw [List.foldl_cons]
        exact ih _ (values_ne_nil_addRating acc pr.1 pr.2 h)
  induction qs with
  | nil => intro acc h; exact h
  | cons q qs' ih =>
      intro acc h
      rw [List.foldl_cons]
      exact ih _ (hinner q acc h)

/-- C3: `get_workers_reliability` returns exactly one row per worker with at
least one pooled agreement observation (workers with none are absent), each
row carries the mean of that worker's pooled observations and the
floor-divided round count, and the reliable flag holds iff that mean strictly
exceeds the threshold. -/
theorem reliability_rows_iff (exps : List (List (String × Nat)))
    (prev : List (List (List (String × Nat)))) (θ : ℚ) (nper : Nat) :
    ((get_workers_reliability exps prev θ nper).map
        (fun row => row.worker_id)).Nodup ∧
    (∀ w, (∃ row ∈ get_workers_reliability exps prev θ nper,
        row.worker_id = w) ↔ observations (exps ++ prev.flatten) w ≠ []) ∧
    (∀ row ∈ get_workers_reliability exps prev θ nper,
        row.mean = meanQ (observations (exps ++ prev.flatten) row.worker_id) ∧
        row.count =
          (observations (exps ++ prev.flatten) row.worker_id).length / nper ∧
        (row.is_worker_reliable = true ↔
          meanQ (observations (exps ++ prev.flatten) row.worker_id) > θ)) := by
  have hobs : ∀ p ∈ poolRatings (exps ++ prev.flatten),
      p.2 = observations (exps ++ prev.flatten) p.1 := by
    intro p hp
    have hl : alookup (poolRatings (exps ++ prev.flatten)) p.1 = some p.2 :=
      mem_alookup_of_keys_nodup _ p.1 p.2
        (poolRatings_keys_nodup (exps ++ prev.flatten)) (by simpa using hp)
    have := alookup_poolRatings (exps ++ prev.flatten) p.1
    rw [hl] at this
    simpa using this
  refine ⟨?_, ?_, ?_⟩
  · have : (get_workers_reliability exps prev θ nper).map
        (fun row => row.worker_id) =
        (poolRatings (exps ++ prev.flatten)).map (fun p => p.1) := by
      rw [get_workers_reliability, List.map_map]
      rfl
    rw [this]
    exact poolRatings_keys_nodup (exps ++ prev.flatten)
  · intro w
    constructor
    · rintro ⟨row, hrow, hw⟩
      rw [get_workers_reliability] at hrow
      rcases List.mem_map.mp hrow with ⟨p, hp, hmk⟩
      have hp1 : p.1 = w := by rw [← hmk] at hw; exact hw
      have := hobs p hp
      rw [hp1] at this
      rw [← this]
      exact poolRatings_values_ne_nil (exps ++ prev.flatten) p hp
    · intro hne
      have hgetd := alookup_poolRatings (exps ++ prev.flatten) w
      cases hl : alookup (poolRatings (exps ++ prev.flatten)) w with
      | none =>
          rw [hl] at hgetd
          exact absurd hgetd.symm (by simpa using hne)
      | some l =>
          refine ⟨WorkerRow.mk w (meanQ l) (l.length / nper)
            (ratMulLt θ l.length l.sum), ?_, rfl⟩
          rw [get_workers_reliability]
          exact List.mem_map.mpr ⟨(w, l), alookup_some_mem _ w l hl, rfl⟩
  · intro row hrow
    rw [get_workers_reliability] at hrow
    rcases List.mem_map.mp hrow with ⟨p, hp, hmk⟩
    have hobsp := hobs p hp
    have hnn := poolRatings_values_ne_nil (exps ++ prev.flatten) p hp
    rw [← hmk]
    refine ⟨by rw [← hobsp], by rw [← hobsp], ?_⟩
    have := ratMulLt_mean_iff θ p.2 hnn
    rw [← hobsp]
    exact this

/-- Witness for C3 on the shrunk unit-test experiment. -/
theorem reliability_rows_iff_witness :
    (∃ row ∈ get_workers_reliability qualityDictsA [] ratFourFifths 20,
      row.worker_id = "a") ∧
    ¬ (∃ row ∈ get_workers_reliability qualityDictsA [] ratFourFifths 20,
      row.worker_id = "zzz") := by
  have h := (reliability_rows_iff qualityDictsA [] ratFourFifths 20).2.1
  constructor
  · exact (h "a").mpr (by decide)
  · intro hx
    exact absurd ((h "zzz").mp hx) (by decide)

/-! ### C7: the reliability filter -/

/-- C7: a raw record survives the filtering step iff its worker appears in
the reliability table with the reliable flag set; workers with no reliability
row (for example, zero agreement observations) simply have all their records
dropped, without any error. -/
theorem filter_step_keeps_reliable_only (raw : List AnnotationRecord)
    (wr : List WorkerRow) (hnd : (wr.map (fun row => row.worker_id)).Nodup)
    (r : AnnotationRecord) :
    r ∈ filterReliable raw wr ↔
      r ∈ raw ∧ ∃ row ∈ wr, row.worker_id = r.worker_id ∧
        row.is_worker_reliable = true := by
  rw [filterReliable, List.mem_filter]
  constructor
  · rintro ⟨hmem, hpred⟩
    refine ⟨hmem, ?_⟩
    cases hf : wr.find? (fun row => row.worker_id == r.worker_id) with
    | none =>
        rw [hf] at hpred
        cases hpred
    | some row0 =>
        rw [hf] at hpred
        have hmem0 := List.mem_of_find?_eq_some hf
        have heq0b := List.find?_some hf
        exact ⟨row0, hmem0, by simpa using heq0b, hpred⟩
  · rintro ⟨hmem, row, hrow, heq, hrel⟩
    refine ⟨hmem, ?_⟩
    cases hf : wr.find? (fun row => row.worker_id == r.worker_id) with
    | none =>
        have := List.find?_eq_none.mp hf row hrow
        exact absurd (by simpa using heq) this
    | some row0 =>
        have hmem0 := List.mem_of_find?_eq_some hf
        have heq0b := List.find?_some hf
        have heq0 : row0.worker_id = r.worker_id := by simpa using heq0b
        have : row = row0 :=
          List.inj_on_of_nodup_map hnd hrow hmem0 (by rw [heq, heq0])
        rw [← this]
        exact hrel

/-- Witness for C7: with w1 reliable, w2 unreliable and w3 unknown, only
w1's record survives. -/
theorem filter_step_keeps_reliable_only_witness :
    ((⟨"J", "a.jpg", 0, "w1", ["Cat"]⟩ : AnnotationRecord) ∈
      filterReliable mixedRaw mixedReliability) ∧
    ¬ ((⟨"J", "a.jpg", 0, "w3", ["Cat"]⟩ : AnnotationRecord) ∈
      filterReliable mixedRaw mixedReliability) := by
  constructor
  · refine (filter_step_keeps_reliable_only mixedRaw mixedReliability
      (by decide) _).mpr ⟨by decide, ?_⟩
    refine ⟨WorkerRow.mk "w1" (meanQ [1]) 0 true, ?_, rfl, rfl⟩
    rw [mixedReliability]
    exact List.mem_cons_self _ _
  · intro hx
    rcases (filter_step_keeps_reliable_only mixedRaw mixedReliability
      (by decide) _).mp hx with ⟨-, row, hrow, heq, hrel⟩
    rw [mixedReliability] at hrow
    rcases List.mem_cons.mp hrow with h | h
    · rw [h] at heq
      exact absurd heq (by decide)
    · rcases List.mem_cons.mp h with h' | h'
      · rw [h'] at heq
        exact absurd heq (by decide)
      · cases h'

/-! ### C6 and C8: the pipeline's two tables -/

theorem filter_out_false_elim (raw : List AnnotationRecord)
    (prev : List (List AnnotationRecord)) (θ : ℚ) (n : Nat) (p : ℚ)
    (dec : List (String × String)) (out : List ConsensusRow × List ConsensusRow)
    (h : filter_out_unreliable_workers raw prev θ n p dec false = some out) :
    groupbyApply raw n p dec = some out.1 ∧
    ∃ pa, prev.mapM (fun rs => groupbyApply rs n p dec) = some pa ∧
      groupbyApply (filterReliable raw (get_workers_reliability
          (out.1.map (fun row => row.summary.worker_quality))
          (pa.map (fun t => t.map (fun row => row.summary.worker_quality)))
          θ 20)) n p dec = some out.2 := by
  rw [filter_out_unreliable_workers] at h
  cases h1 : groupbyApply raw n p dec with
  | none => rw [h1] at h; simp at h
  | some unf =>
      rw [h1] at h
      simp only [Option.bind_eq_bind, Option.some_bind] at h
      cases h2 : prev.mapM (fun rs => groupbyApply rs n p dec) with
      | none => rw [h2] at h; simp at h
      | some pa =>
          rw [h2] at h
          simp only [Option.some_bind, Bool.false_eq_true, if_false] at h
          cases h3 : groupbyApply (filterReliable raw
              (get_workers_reliability
                (unf.map (fun row => row.summary.worker_quality))
                (pa.map (fun t => t.map (fun row => row.summary.worker_quality)))
                θ 20)) n p dec with
          | none => rw [h3] at h; simp at h
          | some f =>
              rw [h3] at h
              simp only [Option.some_bind, Option.some.injEq] at h
              rw [← h]
              exact ⟨rfl, pa, rfl, h3⟩

theorem filter_out_true_elim (raw : List AnnotationRecord)
    (prev : List (List AnnotationRecord)) (θ : ℚ) (n : Nat) (p : ℚ)
    (dec : List (String × String)) (out : List ConsensusRow × List ConsensusRow)
    (h : filter_out_unreliable_workers raw prev θ n p dec true = some out) :
    ∃ u pa, groupbyApply raw n p dec = some u ∧
      prev.mapM (fun rs => groupbyApply rs n p dec) = some pa ∧
      out.1 = u ++ pa.flatten := by
  rw [filter_out_unreliable_workers] at h
  cases h1 : groupbyApply raw n p dec with
  | none => rw [h1] at h; simp at h
  | some unf =>
      rw [h1] at h
      simp only [Option.bind_eq_bind, Option.some_bind] at h
      cases h2 : prev.mapM (fun rs => groupbyApply rs n p dec) with
      | none => rw [h2] at h; simp at h
      | some pa =>
          rw [h2] at h
          simp only [Option.some_bind, if_true] at h
          by_cases hp : prev.isEmpty
          · rw [if_pos hp] at h
            simp at h
          · rw [if_neg hp] at h
            cases hr : raw.head? with
            | none => rw [hr] at h; simp at h
            | some r0 =>
                rw [hr] at h
                dsimp only at h
                cases h3 : groupbyApply (filterReliable
                    (raw ++ prev.flatten.map (fun r =>
                      { r with labelling_job_name := r0.labelling_job_name }))
                    (get_workers_reliability
                      (unf.map (fun row => row.summary.worker_quality))
                      (pa.map (fun t =>
                        t.map (fun row => row.summary.worker_quality)))
                      θ 20)) n p dec with
                | none => rw [h3] at h; simp at h
                | some f =>
                    rw [h3] at h
                    simp only [Option.some_bind, Option.some.injEq] at h
                    rw [← h]
                    exact ⟨unf, pa, rfl, rfl, rfl⟩

/-- C6 (corrected): the first returned table is the consensus over the
current round alone when `include_previous_in_output` is false; when it is
true, the historical rounds' consensus tables are appended after it. -/
theorem first_table_by_flag (raw : List AnnotationRecord)
    (prev : List (List AnnotationRecord)) (θ : ℚ) (n : Nat) (p : ℚ)
    (dec : List (String × String))
    (out : List ConsensusRow × List ConsensusRow) :
    (filter_out_unreliable_workers raw prev θ n p dec false = some out →
      groupbyApply raw n p dec = some out.1) ∧
    (filter_out_unreliable_workers raw prev θ n p dec true = some out →
      ∃ u pa, groupbyApply raw n p dec = some u ∧
        prev.mapM (fun rs => groupbyApply rs n p dec) = some pa ∧
        out.1 = u ++ pa.flatten) := by
  constructor
  · intro h
    exact (filter_out_false_elim raw prev θ n p dec out h).1
  · intro h
    exact filter_out_true_elim raw prev θ n p dec out h

/-- C6 counterexample: with `include_previous_in_output = true` and one
non-empty historical round, the first returned table is not the per-image
consensus over the current round alone. -/
theorem first_table_not_current_only :
    (filter_out_unreliable_workers currentRoundA previousRoundsB ratFourFifths
        2 ratHalf [] true).map (fun out => out.1) ≠
      groupbyApply currentRoundA 2 ratHalf [] := by
  decide

/-- Witness for C6 at a concrete invocation with the flag set. -/
theorem first_table_by_flag_witness :
    ∃ out, filter_out_unreliable_workers currentRoundA previousRoundsB
        ratFourFifths 2 ratHalf [] true = some out ∧
      ∃ u pa, groupbyApply currentRoundA 2 ratHalf [] = some u ∧
        previousRoundsB.mapM (fun rs => groupbyApply rs 2 ratHalf []) =
          some pa ∧
        out.1 = u ++ pa.flatten := by
  have hsome : (filter_out_unreliable_workers currentRoundA previousRoundsB
      ratFourFifths 2 ratHalf [] true).isSome = true := by decide
  obtain ⟨out, hout⟩ := Option.isSome_iff_exists.mp hsome
  exact ⟨out, hout, (first_table_by_flag currentRoundA previousRoundsB
    ratFourFifths 2 ratHalf [] out).2 hout⟩

theorem mem_sortKeyPairs (ks : List (String × String)) (k : String × String) :
    k ∈ sortKeyPairs ks ↔ k ∈ ks := by
  rw [sortKeyPairs]
  exact mem_sortBy keyPairLt ks k

theorem rowsForKeys_mem_elim (rs : List AnnotationRecord) (n : Nat) (p : ℚ)
    (dec : List (String × String)) :
    ∀ (ks : List (String × String)) (t : List ConsensusRow),
      rowsForKeys rs n p dec ks = some t → ∀ row ∈ t, ∃ k ∈ ks,
        row.image_filename = k.1 ∧ row.labelling_job_name = k.2 ∧
        get_summary_stats_for_image (groupOf rs k) n p dec =
          some row.summary := by
  intro ks
  induction ks with
  | nil =>
      intro t ht row hrow
      rw [rowsForKeys] at ht
      injection ht with ht
      rw [← ht] at hrow
      cases hrow
  | cons k ks' ih =>
      intro t ht row hrow
      rw [rowsForKeys] at ht
      cases hg : get_summary_stats_for_image (groupOf rs k) n p dec with
      | none => rw [hg] at ht; cases ht
      | some s =>
          rw [hg] at ht
          cases hrec : rowsForKeys rs n p dec ks' with
          | none => rw [hrec] at ht; cases ht
          | some t' =>
              rw [hrec] at ht
              injection ht with ht
              rw [← ht] at hrow
              rcases List.mem_cons.mp hrow with h | h
              · refine ⟨k, List.mem_cons.mpr (Or.inl rfl), ?_, ?_, ?_⟩
                · rw [h]
                · rw [h]
                · rw [h]
                  exact hg
              · rcases ih t' hrec row h with ⟨k', hk', h1, h2, h3⟩
                exact ⟨k', List.mem_cons.mpr (Or.inr hk'), h1, h2, h3⟩

theorem rowsForKeys_mem_intro (rs : List AnnotationRecord) (n : Nat) (p : ℚ)
    (dec : List (String × String)) :
    ∀ (ks : List (String × String)) (t : List ConsensusRow),
      rowsForKeys rs n p dec ks = some t → ∀ k ∈ ks,
        ∃ s, get_summary_stats_for_image (groupOf rs k) n p dec = some s ∧
          ConsensusRow.mk k.1 k.2 s ∈ t := by
  intro ks
  induction ks with
  | nil =>
      intro t ht k hk
      cases hk
  | cons k0 ks' ih =>
      intro t ht k hk
      rw [rowsForKeys] at ht
      cases hg : get_summary_stats_for_image (groupOf rs k0) n p dec with
      | none => rw [hg] at ht; cases ht
      | some s0 =>
          rw [hg] at ht
          cases hrec : rowsForKeys rs n p dec ks' with
          | none => rw [hrec] at ht; cases ht
          | some t' =>
              rw [hrec] at ht
              injection ht with ht
              rcases List.mem_cons.mp hk with h | h
              · subst h
                refine ⟨s0, hg, ?_⟩
                rw [← ht]
                exact List.mem_cons.mpr (Or.inl rfl)
              · rcases ih t' hrec k h with ⟨s, hs, hmem⟩
                refine ⟨s, hs, ?_⟩
                rw [← ht]
                exact List.mem_cons.mpr (Or.inr hmem)

theorem groupby_filter_counts (raw : List AnnotationRecord)
    (c : AnnotationRecord → Bool) (n : Nat) (p : ℚ)
    (dec : List (String × String)) (u f : List ConsensusRow)
    (hu : groupbyApply raw n p dec = some u)
    (hf : groupbyApply (raw.filter c) n p dec = some f) :
    ∀ frow ∈ f, ∃ urow ∈ u,
      urow.image_filename = frow.image_filename ∧
      urow.labelling_job_name = frow.labelling_job_name ∧
      frow.summary.no_eligible_workers ≤
        urow.summary.no_eligible_workers := by
  intro frow hfrow
  rw [groupbyApply] at hu hf
  rcases rowsForKeys_mem_elim (raw.filter c) n p dec _ _ hf frow hfrow with
    ⟨k, hk, h1, h2, h3⟩
  have hkraw : k ∈ sortKeyPairs (keyPairs raw) := by
    have hk' := (mem_sortKeyPairs _ k).mp hk
    rcases (mem_keyPairs _ k).mp hk' with ⟨r, hr, hkey⟩
    exact (mem_sortKeyPairs _ k).mpr
      ((mem_keyPairs raw k).mpr ⟨r, List.mem_of_mem_filter hr, hkey⟩)
  rcases rowsForKeys_mem_intro raw n p dec _ _ hu k hkraw with ⟨s, hs, hmem⟩
  refine ⟨ConsensusRow.mk k.1 k.2 s, hmem, ?_, ?_, ?_⟩
  · rw [h1]
  · rw [h2]
  · have hcf := (gssfi_some_elim _ n p dec _ h3).2.2.2.1
    have hcu := (gssfi_some_elim _ n p dec _ hs).2.2.2.1
    show frow.summary.no_eligible_workers ≤ s.no_eligible_workers
    rw [hcf, hcu]
    apply List.Sublist.length_le
    rw [groupOf, groupOf]
    exact List.Sublist.filter _ (List.filter_sublist raw)

/-- C8 (corrected): with `include_previous_in_output = false`, every row of
the filtered consensus table has a row with the same image and job in the
unfiltered consensus table whose contributing-worker count is at least as
large. -/
theorem filtered_counts_le_unfiltered (raw : List AnnotationRecord)
    (prev : List (List AnnotationRecord)) (θ : ℚ) (n : Nat) (p : ℚ)
    (dec : List (String × String))
    (out : List ConsensusRow × List ConsensusRow)
    (h : filter_out_unreliable_workers raw prev θ n p dec false = some out) :
    ∀ frow ∈ out.2, ∃ urow ∈ out.1,
      urow.image_filename = frow.image_filename ∧
      urow.labelling_job_name = frow.labelling_job_name ∧
      frow.summary.no_eligible_workers ≤
        urow.summary.no_eligible_workers := by
  obtain ⟨hu, pa, hpa, hf⟩ := filter_out_false_elim raw prev θ n p dec out h
  rw [filterReliable] at hf
  exact groupby_filter_counts raw _ n p dec out.1 out.2 hu hf

/-- C8 counterexample: with `include_previous_in_output = true`, pooling the
rounds makes the filtered row for x.jpg count 3 workers while every
unfiltered row for x.jpg counts fewer. -/
theorem filtered_count_can_exceed :
    (filter_out_unreliable_workers currentRoundX previousRoundsX ratFourFifths
        2 ratHalf [] true).isSome = true ∧
    (∃ frow ∈ ((filter_out_unreliable_workers currentRoundX previousRoundsX
        ratFourFifths 2 ratHalf [] true).getD ([], [])).2,
      ∀ urow ∈ ((filter_out_unreliable_workers currentRoundX previousRoundsX
          ratFourFifths 2 ratHalf [] true).getD ([], [])).1,
        urow.image_filename ≠ frow.image_filename ∨
          urow.summary.no_eligible_workers <
            frow.summary.no_eligible_workers) := by
  decide

/-- Witness for C8 at a concrete invocation with the flag unset. -/
theorem filtered_counts_le_unfiltered_witness :
    ∃ out, filter_out_unreliable_workers currentRoundA [] ratFourFifths 2
        ratHalf [] false = some out ∧
      ∀ frow ∈ out.2, ∃ urow ∈ out.1,
        urow.image_filename = frow.image_filename ∧
        urow.labelling_job_name = frow.labelling_job_name ∧
        frow.summary.no_eligible_workers ≤
          urow.summary.no_eligible_workers := by
  have hsome : (filter_out_unreliable_workers currentRoundA [] ratFourFifths 2
      ratHalf [] false).isSome = true := by decide
  obtain ⟨out, hout⟩ := Option.isSome_iff_exists.mp hsome
  exact ⟨out, hout, filtered_counts_le_unfiltered currentRoundA []
    ratFourFifths 2 ratHalf [] out hout⟩

/-! ### C9: a missing manifest entry -/

theorem readWorkerLabels_ok_or_keyerror (job : String)
    (t : List (Nat × String)) (w : String) :
    ∀ items : List (String × List String),
      (∀ item ∈ items, parseIndex item.1 ≠ none) →
      (∃ l, readWorkerLabels job t w items = Except.ok l) ∨
      (∃ i, readWorkerLabels job t w items =
          Except.error (PyError.keyError i) ∧ alookup t i = none) := by
  intro items
  induction items with
  | nil => intro _; exact Or.inl ⟨[], rfl⟩
  | cons item rest ih =>
      intro hids
      obtain ⟨label_id, this_labels⟩ := item
      rw [readWorkerLabels]
      cases hp : parseIndex label_id with
      | none =>
          exact absurd hp
            (hids (label_id, this_labels) (List.mem_cons.mpr (Or.inl rfl)))
      | some i =>
          dsimp only
          cases hl : alookup t i with
          | none =>
              dsimp only
              exact Or.inr ⟨i, rfl, hl⟩
          | some fn =>
              dsimp only
              rcases ih (fun item' h' =>
                  hids item' (List.mem_cons.mpr (Or.inr h'))) with
                ⟨l, hok⟩ | ⟨i', herr, hmiss⟩
              · rw [hok]
                dsimp only
                exact Or.inl ⟨_, rfl⟩
              · rw [herr]
                dsimp only
                exact Or.inr ⟨i', rfl, hmiss⟩

theorem readWorkerLabels_ok_all_found (job : String)
    (t : List (Nat × String)) (w : String) :
    ∀ (items : List (String × List String)) (l : List AnnotationRecord),
      readWorkerLabels job t w items = Except.ok l →
      ∀ item ∈ items, ∀ i, parseIndex item.1 = some i →
        alookup t i ≠ none := by
  intro items
  induction items with
  | nil => intro l _ item hitem; cases hitem
  | cons item0 rest ih =>
      intro l h item hitem i hi
      obtain ⟨label_id, this_labels⟩ := item0
      rw [readWorkerLabels] at h
      cases hp : parseIndex label_id with
      | none => rw [hp] at h; dsimp only at h; cases h
      | some i0 =>
          rw [hp] at h
          dsimp only at h
          cases hl : alookup t i0 with
          | none => rw [hl] at h; dsimp only at h; cases h
          | some fn =>
              rw [hl] at h
              dsimp only at h
              cases hr : readWorkerLabels job t w rest with
              | error e => rw [hr] at h; dsimp only at h; cases h
              | ok tail =>
                  rcases List.mem_cons.mp hitem with he | he
                  · rw [he] at hi
                    dsimp only at hi
                    rw [hp] at hi
                    injection hi with hi
                    rw [← hi]
                    intro hc
                    rw [hc] at hl
                    cases hl
                  · exact ih tail hr item he i hi

theorem readSubmissions_ok_or_keyerror (job : String)
    (t : List (Nat × String)) :
    ∀ subs : List (String × List (String × List String)),
      (∀ sub ∈ subs, ∀ item ∈ sub.2, parseIndex item.1 ≠ none) →
      (∃ l, readSubmissions job t subs = Except.ok l) ∨
      (∃ i, readSubmissions job t subs = Except.error (PyError.keyError i) ∧
        alookup t i = none) := by
  intro subs
  induction subs with
  | nil => intro _; exact Or.inl ⟨[], rfl⟩
  | cons sub rest ih =>
      intro hids
      obtain ⟨w, items⟩ := sub
      rw [readSubmissions]
      rcases readWorkerLabels_ok_or_keyerror job t w items
          (fun item h' => hids (w, items) (List.mem_cons.mpr (Or.inl rfl))
            item h') with ⟨l, hok⟩ | ⟨i, herr, hmiss⟩
      · rw [hok]
        dsimp only
        rcases ih (fun sub' h' item h'' =>
            hids sub' (List.mem_cons.mpr (Or.inr h')) item h'') with
          ⟨l', hok'⟩ | ⟨i', herr', hmiss'⟩
        · rw [hok']
          dsimp only
          exact Or.inl ⟨_, rfl⟩
        · rw [herr']
          dsimp only
          exact Or.inr ⟨i', rfl, hmiss'⟩
      · rw [herr]
        dsimp only
        exact Or.inr ⟨i, rfl, hmiss⟩

theorem readSubmissions_ok_all_found (job : String)
    (t : List (Nat × String)) :
    ∀ (subs : List (String × List (String × List String)))
      (l : List AnnotationRecord),
      readSubmissions job t subs = Except.ok l →
      ∀ sub ∈ subs, ∀ item ∈ sub.2, ∀ i, parseIndex item.1 = some i →
        alookup t i ≠ none := by
  intro subs
  induction subs with
  | nil => intro l _ sub hsub; cases hsub
  | cons sub0 rest ih =>
      intro l h sub hsub item hitem i hi
      obtain ⟨w, items⟩ := sub0
      rw [readSubmissions] at h
      cases hw : readWorkerLabels job t w items with
      | error e => rw [hw] at h; dsimp only at h; cases h
      | ok here =>
          rw [hw] at h
          dsimp only at h
          cases hr : readSubmissions job t rest with
          | error e => rw [hr] at h; dsimp only at h; cases h
          | ok tail =>
              rcases List.mem_cons.mp hsub with he | he
              · rw [he] at hitem
                exact readWorkerLabels_ok_all_found job t w items here hw
                  item hitem i hi
              · exact ih tail hr sub he item hitem i hi

/-- C9 (corrected): a payload in which some worker's label index has no
entry in its annotation set's index-to-filename table (and whose label ids
all parse) makes `read_responses` fail with a `KeyError` carrying an
unresolved index.  The specification's `MalformedInputError` class does not
exist anywhere in the codebase. -/
theorem missing_manifest_entry_keyerror (job : String)
    (data : List AnnotationSet)
    (hids : ∀ aset ∈ data, ∀ sub ∈ aset.submissions, ∀ item ∈ sub.2,
      parseIndex item.1 ≠ none)
    (hmiss : ∃ aset ∈ data, ∃ sub ∈ aset.submissions, ∃ item ∈ sub.2,
      ∀ i, parseIndex item.1 = some i →
        alookup (index_to_filename aset.manifest) i = none) :
    ∃ i, read_responses job data = Except.error (PyError.keyError i) ∧
      ∃ aset ∈ data, alookup (index_to_filename aset.manifest) i = none := by
  induction data with
  | nil => rcases hmiss with ⟨aset, haset, -⟩; cases haset
  | cons aset0 rest ih =>
      rw [read_responses]
      rcases readSubmissions_ok_or_keyerror job
          (index_to_filename aset0.manifest) aset0.submissions
          (fun sub h' item h'' =>
            hids aset0 (List.mem_cons.mpr (Or.inl rfl)) sub h' item h'') with
        ⟨l, hok⟩ | ⟨i, herr, hmiss0⟩
      · rw [hok]
        dsimp only
        have hrest : ∃ aset ∈ rest, ∃ sub ∈ aset.submissions,
            ∃ item ∈ sub.2, ∀ i, parseIndex item.1 = some i →
              alookup (index_to_filename aset.manifest) i = none := by
          rcases hmiss with ⟨aset, haset, sub, hsub, item, hitem, hbad⟩
          rcases List.mem_cons.mp haset with he | he
          · exfalso
            cases hp : parseIndex item.1 with
            | none =>
                exact absurd hp (hids aset haset sub hsub item hitem)
            | some i =>
                refine readSubmissions_ok_all_found job
                  (index_to_filename aset0.manifest) aset0.submissions l hok
                  sub ?_ item hitem i hp ?_
                · rw [← he]; exact hsub
                · have := hbad i hp
                  rw [he] at this
                  exact this
          · exact ⟨aset, he, sub, hsub, item, hitem, hbad⟩
        rcases ih (fun aset h' => hids aset (List.mem_cons.mpr (Or.inr h')))
            hrest with ⟨i, herr, aset', haset', hmiss'⟩
        rw [herr]
        dsimp only
        exact ⟨i, rfl, aset', List.mem_cons.mpr (Or.inr haset'), hmiss'⟩
      · rw [herr]
        dsimp only
        exact ⟨i, rfl, aset0, List.mem_cons.mpr (Or.inl rfl), hmiss0⟩

/-- C9 counterexample: at the concrete payload whose only label id points at
index 1 while the manifest lists only index 0, the code raises a plain
`KeyError`, not the `MalformedInputError` the specification names. -/
theorem missing_manifest_entry_cex :
    read_responses "labelling-job" [missingIndexSet] =
      Except.error (PyError.keyError 1) ∧
    (Except.error (PyError.keyError 1) :
        Except PyError (List AnnotationRecord)) ≠
      Except.error PyError.malformedInputError := by
  decide

/-- Witness for C9 at the concrete missing-index payload. -/
theorem missing_manifest_entry_keyerror_witness :
    ∃ i, read_responses "labelling-job" [missingIndexSet] =
        Except.error (PyError.keyError i) ∧
      ∃ aset ∈ [missingIndexSet],
        alookup (index_to_filename aset.manifest) i = none :=
  missing_manifest_entry_keyerror "labelling-job" [missingIndexSet]
    (by decide) (by decide)

/-! ### C10: the pre-processing lambda handler -/

/-- C10: for every event whose dataObject dict has no `source` entry the
handler returns the empty object without raising; a string source is first
JSON-decoded; and in either remaining case the (decoded or already
structured) source is wrapped as `{"taskInput": {"taskObject": source}}`. -/
theorem lambda_handler_wraps_source (loads : String → Except String PyVal)
    (event : List (String × PyVal)) (dobj : List (String × PyVal))
    (hd : pyGetItem event "dataObject" = Except.ok (PyVal.pyDict dobj)) :
    (pyGet dobj "source" = PyVal.pyNone →
      lambda_handler loads event = Except.ok (PyVal.pyDict [])) ∧
    (∀ s v, pyGet dobj "source" = PyVal.pyStr s → loads s = Except.ok v →
      lambda_handler loads event = Except.ok (wrapTask v)) ∧
    (∀ entries, pyGet dobj "source" = PyVal.pyDict entries →
      lambda_handler loads event = Except.ok (wrapTask (PyVal.pyDict entries))) ∧
    (∀ xs, pyGet dobj "source" = PyVal.pyList xs →
      lambda_handler loads event = Except.ok (wrapTask (PyVal.pyList xs))) := by
  refine ⟨?_, ?_, ?_, ?_⟩
  · intro hsrc
    rw [lambda_handler, hd]
    dsimp only
    rw [hsrc]
  · intro s v hsrc hload
    rw [lambda_handler, hd]
    dsimp only
    rw [hsrc]
    dsimp only
    rw [hload]
  · intro entries hsrc
    rw [lambda_handler, hd]
    dsimp only
    rw [hsrc]
  · intro xs hsrc
    rw [lambda_handler, hd]
    dsimp only
    rw [hsrc]

/-- Witness for C10 on three concrete events: a missing source, a
string-encoded source, and an already structured source. -/
theorem lambda_handler_wraps_source_witness :
    lambda_handler (fun _ => Except.ok (PyVal.pyList []))
      [("dataObject", PyVal.pyDict [])] = Except.ok (PyVal.pyDict []) ∧
    lambda_handler (fun _ => Except.ok (PyVal.pyList []))
      [("dataObject", PyVal.pyDict [("source", PyVal.pyStr "[]")])] =
      Except.ok (wrapTask (PyVal.pyList [])) ∧
    lambda_handler (fun _ => Except.ok (PyVal.pyList []))
      [("dataObject", PyVal.pyDict
        [("source", PyVal.pyDict [("a", PyVal.pyNone)])])] =
      Except.ok (wrapTask (PyVal.pyDict [("a", PyVal.pyNone)])) := by
  refine ⟨?_, ?_, ?_⟩
  · exact (lambda_handler_wraps_source (fun _ => Except.ok (PyVal.pyList []))
      [("dataObject", PyVal.pyDict [])] [] rfl).1 rfl
  · exact (lambda_handler_wraps_source (fun _ => Except.ok (PyVal.pyList []))
      [("dataObject", PyVal.pyDict [("source", PyVal.pyStr "[]")])]
      [("source", PyVal.pyStr "[]")] rfl).2.1 "[]" (PyVal.pyList []) rfl rfl
  · exact (lambda_handler_wraps_source (fun _ => Except.ok (PyVal.pyList []))
      [("dataObject", PyVal.pyDict
        [("source", PyVal.pyDict [("a", PyVal.pyNone)])])]
      [("source", PyVal.pyDict [("a", PyVal.pyNone)])] rfl).2.2.1
      [("a", PyVal.pyNone)] rfl
